import Mathlib

/-!
Verification of the battlers combat simulator.

The Rust sources are embedded shallowly:
* machine integers (`i32`) become `Int` (all arithmetic in the simulation is
  far from the 32-bit boundaries: attributes come from 3d6 rolls or small
  configuration values, the turn counter is capped at 257);
* `f32` values (locations, distances) become `ℝ`, so floating-point rounding
  is idealised away; every claim touching them is stated over this real model;
* the thread RNG becomes an explicit stream `roll : Nat → Int` of successive
  raw die results, together with the index of the next unconsumed draw;
* fallible operations (`Option`/`unwrap`) return `Option`, `none` marking a
  Rust panic.
-/

/-- src/player.rs: `pub enum Attribute` — the six attribute kinds. -/
inductive Attribute where
  | Attack
  | Defense
  | Armor
  | Power
  | Speed
  | Range
deriving DecidableEq, Repr

/-- src/player.rs: `pub struct PlayerAttribute { name, base: i32, curr: i32 }`. -/
structure PlayerAttribute where
  name : Attribute
  base : Int
  curr : Int
deriving DecidableEq, Repr

/-- src/player.rs: `PlayerAttribute::new` — base and curr start at 0. -/
def PlayerAttribute.new (name : Attribute) : PlayerAttribute :=
  { name := name, base := 0, curr := 0 }

/-- src/player.rs: `PlayerAttribute::set` — `base = value; curr = base`. -/
def PlayerAttribute.set (a : PlayerAttribute) (value : Int) : PlayerAttribute :=
  { a with base := value, curr := value }

/-- src/player.rs: `PlayerAttribute::bonus` computes
`((curr as f32 - 10.5) / 2.0) as i32`.  The `f32` arithmetic is exact for
every attribute magnitude the simulation produces (3d6 rolls and
configuration values, far below 2^22), and the `as i32` cast truncates the
fraction toward zero.  `2 * curr - 21` is odd, the code below divides by 4
with nonnegative operands on both branches, which is exactly that
truncation. -/
def PlayerAttribute.bonus (a : PlayerAttribute) : Int :=
  let n : Int := 2 * a.curr - 21
  if 0 ≤ n then n / 4 else -((-n) / 4)

/-- src/player.rs: `pub struct Location { x, y, z: f32 }`, over the real
model of `f32`. -/
structure Location where
  x : ℝ
  y : ℝ
  z : ℝ

/-- src/player.rs: `Location::new`. -/
def Location.new (x y z : ℝ) : Location := { x := x, y := y, z := z }

/-- src/player.rs: `Location::distance` — Euclidean distance
`sqrt(dx^2 + dy^2 + dz^2)`. -/
noncomputable def Location.distance (self target : Location) : ℝ :=
  Real.sqrt ((self.x - target.x) ^ 2 + (self.y - target.y) ^ 2 +
    (self.z - target.z) ^ 2)

/-- src/player.rs: `pub struct Player`. -/
structure Player where
  name : String
  attack : PlayerAttribute
  defense : PlayerAttribute
  armor : PlayerAttribute
  power : PlayerAttribute
  speed : PlayerAttribute
  range : PlayerAttribute
  loc : Location

/-- src/player.rs: `Player::new` — zeroed attributes, origin location. -/
def Player.new (name : String) : Player :=
  { name := name
    attack := PlayerAttribute.new Attribute.Attack
    defense := PlayerAttribute.new Attribute.Defense
    armor := PlayerAttribute.new Attribute.Armor
    power := PlayerAttribute.new Attribute.Power
    speed := PlayerAttribute.new Attribute.Speed
    range := PlayerAttribute.new Attribute.Range
    loc := Location.new 0 0 0 }

open Classical in
/-- src/player.rs: `Player::move_towards`.  If the distance to `target` is
at most `speed.curr` nothing moves; otherwise the displacement is
normalised by the (3-dimensional) distance and the position advances by
`speed.curr` along the normalised x/y components.  `z` is never written. -/
noncomputable def Player.move_towards (self : Player) (target : Location) : Player :=
  let distance := self.loc.distance target
  if distance ≤ (self.speed.curr : ℝ) then
    self
  else
    let dx_normalized := (target.x - self.loc.x) / distance
    let dy_normalized := (target.y - self.loc.y) / distance
    let new_x := self.loc.x + dx_normalized * (self.speed.curr : ℝ)
    let new_y := self.loc.y + dy_normalized * (self.speed.curr : ℝ)
    { self with loc := { self.loc with x := new_x, y := new_y } }

/-- src/player.rs: `Player::in_range` —
`distance(self.loc, target) <= range.curr`. -/
def Player.in_range (self : Player) (target : Location) : Prop :=
  self.loc.distance target ≤ (self.range.curr : ℝ)

/-- src/player.rs: `Player::attack` with the 1d20 result made explicit —
the hit succeeds iff `attack.bonus() + roll >= target.defense.curr`.
(Named `attackHits` because `attack` is already the field projection.) -/
def Player.attackHits (self target : Player) (roll : Int) : Prop :=
  self.attack.bonus + roll ≥ target.defense.curr

instance (self target : Player) (roll : Int) :
    Decidable (Player.attackHits self target roll) := by
  unfold Player.attackHits; infer_instance

/-- src/player.rs: `Player::damage` with the 1d8 result made explicit.
Returns the damage applied together with the updated target: an amount
below 1 is clamped to 0 and the target is untouched, otherwise the
target's `armor.curr` drops by the amount. -/
def Player.damage (self target : Player) (roll : Int) : Int × Player :=
  let damage_inflicted := roll + self.power.bonus
  if damage_inflicted < 1 then
    (0, target)
  else
    (damage_inflicted,
      { target with armor := { target.armor with curr := target.armor.curr - damage_inflicted } })

/-- src/player.rs: `Player::is_dead` — `armor.curr < 1`. -/
def Player.is_dead (self : Player) : Prop := self.armor.curr < 1

instance (self : Player) : Decidable (Player.is_dead self) := by
  unfold Player.is_dead; infer_instance

/-- src/main.rs lines 145-149: the legacy standalone binary's
`Player::damage`: it subtracts `roll1d8() + power.bonus()` from the
target's armor unconditionally and returns the raw amount — no clamping
of amounts below 1. -/
def Main.Player.damage (self target : Player) (roll : Int) : Int × Player :=
  let damage_inflicted := roll + self.power.bonus
  (damage_inflicted,
    { target with armor := { target.armor with curr := target.armor.curr - damage_inflicted } })

/-- The value of `f32::MAX`, the initial `min_distance` in the
nearest-target scans, as a real number: `(2 - 2^-23) * 2^127`. -/
noncomputable def f32MAX : ℝ := 2 ^ 128 - 2 ^ 104

/-- Modelled from the spec: the module-level turn-cap constant referenced
as `crate::MAX_TURNS` by src/game.rs and src/app.rs is declared in the
crate root, which is not among the provided sources; the spec fixes its
default at 256. -/
def MAX_TURNS : Int := 256

/-- src/game.rs: `pub struct Game { turns: i32, players: VecDeque<Player> }`.
The deque front is the list head. -/
structure Game where
  turns : Int
  players : List Player

/-- src/game.rs: `Game::new`. -/
def Game.new : Game := { turns := 0, players := [] }

open Classical in
/-- Scan loop of src/game.rs `Game::get_nearest` (lines 21-29), carrying
the enumeration index, the running `min_distance` and the current best
candidate.  Line 23 of the source computes
`source.loc.distance(&source.loc)` — the distance from the source to
itself, not to the scanned candidate — and that self-distance is
reproduced verbatim here. -/
noncomputable def get_nearest_go (source : Player) :
    Nat → List Player → ℝ → Option (Nat × Player) → Option (Nat × Player)
  | _, [], _, target => target
  | idx, player :: rest, min_distance, target =>
    if source.name ≠ player.name then
      let distance := source.loc.distance source.loc
      if distance < min_distance then
        get_nearest_go source (idx + 1) rest distance (some (idx, player))
      else
        get_nearest_go source (idx + 1) rest min_distance target
    else
      get_nearest_go source (idx + 1) rest min_distance target

/-- src/game.rs: `Game::get_nearest` — scan all players whose name differs
from the source's, tracking the minimum of the (buggy, see
`get_nearest_go`) distance value, returning the winning index and player. -/
noncomputable def Game.get_nearest (source : Player) (players : List Player) :
    Option (Nat × Player) :=
  get_nearest_go source 0 players f32MAX none

open Classical in
/-- Loop body of src/game.rs `Game::run_simulation` (lines 34-54), acting
on the already-popped front player `active` and the remaining deque
`rest`.  Returns `none` where the source would panic (the `unwrap` of
`get_nearest`), otherwise the new deque (with `active` pushed to the
back) and the updated roll index.  In range: one 1d20 attack roll, on a
hit one 1d8 damage roll applied to the target, and a target whose armor
fell below 1 is removed at its index.  Out of range: `active` moves
towards the target. -/
noncomputable def Game.run_turn (roll : Nat → Int) (k : Nat) (active : Player)
    (rest : List Player) : Option (List Player × Nat) :=
  match Game.get_nearest active rest with
  | none => none
  | some (idx, nearest_player) =>
    if active.in_range nearest_player.loc then
      if active.attackHits nearest_player (roll k) then
        let damage_result := active.damage nearest_player (roll (k + 1))
        let nearest' := damage_result.2
        let rest' := rest.set idx nearest'
        if nearest'.is_dead then
          some ((rest'.eraseIdx idx) ++ [active], k + 2)
        else
          some (rest' ++ [active], k + 2)
      else
        some (rest ++ [active], k + 1)
    else
      some (rest ++ [active.move_towards nearest_player.loc], k)

open Classical in
/-- src/game.rs: `Game::run_simulation` — while more than one player
remains: pop the front player, run one turn (`Game.run_turn`), push the
actor to the back, increment `turns`, and break once `turns` exceeds
`MAX_TURNS`.  Returns the final `turns` value and player deque (`none`
only on the source's panic path). -/
noncomputable def Game.run_simulation (roll : Nat → Int) (s : Game) (k : Nat) :
    Option (Int × List Player) :=
  if 1 < s.players.length then
    match s.players with
    | [] => none
    | active :: rest =>
      match Game.run_turn roll k active rest with
      | none => none
      | some (players', k') =>
        let turns' := s.turns + 1
        if MAX_TURNS < turns' then
          some (turns', players')
        else
          Game.run_simulation roll { turns := turns', players := players' } k'
  else
    some (s.turns, s.players)
termination_by (MAX_TURNS + 1 - s.turns).toNat
decreasing_by
  simp only [MAX_TURNS] at *
  omega


/-- src/app.rs: `pub enum AppState`. -/
inductive AppState where
  | Setup
  | Running
  | Paused
  | Finished
  | Quit
deriving DecidableEq, Repr

/-- src/app.rs: `pub enum BattleEventType`. -/
inductive BattleEventType where
  | Movement
  | Attack
  | Hit
  | Miss
  | Death
  | Info
deriving DecidableEq, Repr

/-- src/app.rs: `pub struct BattleEvent { turn, message, event_type }`. -/
structure BattleEvent where
  turn : Int
  message : String
  event_type : BattleEventType
deriving DecidableEq, Repr

/-- src/app.rs: `pub struct App`. -/
structure App where
  state : AppState
  game : Game
  battle_log : List BattleEvent
  current_turn : Int
  auto_advance : Bool
  tick_rate : Nat
  max_log_entries : Nat

/-- src/app.rs: `App::new` — Setup state, empty game and log, turn 0,
tick rate 500ms, log capped at 50 entries. -/
def App.new : App :=
  { state := AppState.Setup
    game := Game.new
    battle_log := []
    current_turn := 0
    auto_advance := false
    tick_rate := 500
    max_log_entries := 50 }

/-- The `while self.battle_log.len() > self.max_log_entries { pop_front }`
loop at the end of src/app.rs `App::add_battle_event`. -/
def trim_log (l : List BattleEvent) (max : Nat) : List BattleEvent :=
  if max < l.length then trim_log l.tail max else l
termination_by l.length
decreasing_by
  cases l with
  | nil => simp at *
  | cons a t => simp

/-- src/app.rs: `App::add_battle_event` — append an event stamped with the
current turn, then evict from the front while over `max_log_entries`. -/
def App.add_battle_event (app : App) (message : String)
    (event_type : BattleEventType) : App :=
  let event : BattleEvent :=
    { turn := app.current_turn, message := message, event_type := event_type }
  { app with battle_log := trim_log (app.battle_log ++ [event]) app.max_log_entries }

/-- src/app.rs: `App::finish_battle` — mark the battle finished; with a
sole survivor log the winner (name and remaining armor), otherwise log an
inconclusive end. -/
def App.finish_battle (app : App) : App :=
  let app' := { app with state := AppState.Finished }
  if app'.game.players.length = 1 then
    match app'.game.players.head? with
    | some winner =>
      app'.add_battle_event
        (winner.name ++ " is the winner with " ++ toString winner.armor.curr ++
          "/" ++ toString winner.armor.base ++ " health remaining!")
        BattleEventType.Info
    | none => app'
  else
    app'.add_battle_event "Battle ended inconclusively" BattleEventType.Info

/-- src/app.rs: `App::get_winner` — the sole remaining player, if any. -/
def App.get_winner (app : App) : Option Player :=
  if app.game.players.length = 1 then app.game.players.head? else none

open Classical in
/-- The `// Execute one turn of the battle` block of src/app.rs
`App::step_battle` (lines 115-176): pop the front player, look up the
nearest target (name and location first, then a second identical
`get_nearest` call for the combat borrow as in the source), then either
fight (in-range/hit/miss/death events, damage applied at the target's
index, a dead target removed) or move towards the target, and push the
actor to the back.  The formatted distance inside the movement message is
elided (no claim concerns message text).  Returns the updated app and
roll index. -/
noncomputable def App.step_act (roll : Nat → Int) (k : Nat) (app : App) : App × Nat :=
  match app.game.players with
  | [] => (app, k)
  | active :: rest =>
    match Game.get_nearest active rest with
    | none =>
      ({ app with game := { app.game with players := rest ++ [active] } }, k)
    | some (target_idx, tgt) =>
      let target_name := tgt.name
      let target_loc := tgt.loc
      if active.in_range target_loc then
        let appA := app.add_battle_event
          (active.name ++ " is in range of " ++ target_name) BattleEventType.Info
        match Game.get_nearest active rest with
        | none =>
          ({ appA with game := { appA.game with players := rest ++ [active] } }, k)
        | some (_, nearest_player) =>
          if active.attackHits nearest_player (roll k) then
            let damage_result := active.damage nearest_player (roll (k + 1))
            let damage_done := damage_result.1
            let nearest' := damage_result.2
            let rest' := rest.set target_idx nearest'
            let appB := appA.add_battle_event
              (active.name ++ " hit " ++ target_name ++ " for " ++
                toString damage_done ++ " damage") BattleEventType.Hit
            if nearest'.is_dead then
              let appC := appB.add_battle_event
                (active.name ++ " defeated " ++ target_name) BattleEventType.Death
              ({ appC with game :=
                  { appC.game with players := (rest'.eraseIdx target_idx) ++ [active] } },
                k + 2)
            else
              ({ appB with game := { appB.game with players := rest' ++ [active] } },
                k + 2)
          else
            let appB := appA.add_battle_event (active.name ++ " missed")
              BattleEventType.Miss
            ({ appB with game := { appB.game with players := rest ++ [active] } },
              k + 1)
      else
        let appM := app.add_battle_event
          (active.name ++ " moves towards " ++ target_name) BattleEventType.Movement
        ({ appM with game :=
            { appM.game with players := rest ++ [active.move_towards target_loc] } },
          k)

open Classical in
/-- src/app.rs: `App::step_battle` — report the battle over (`false`)
when at most one player remains or the turn counter has reached
`MAX_TURNS`; otherwise execute one turn (`App.step_act`), increment
`current_turn`, mirror it into `game.turns`, and re-check the
single-survivor condition. -/
noncomputable def App.step_battle (roll : Nat → Int) (k : Nat) (app : App) :
    Bool × App × Nat :=
  if app.game.players.length ≤ 1 then
    (false, app.finish_battle, k)
  else if MAX_TURNS ≤ app.current_turn then
    (false,
      ((app.add_battle_event
          ("Battle reached maximum turns: " ++ toString MAX_TURNS)
          BattleEventType.Info).finish_battle),
      k)
  else
    let acted := App.step_act roll k app
    let app1 := acted.1
    let k1 := acted.2
    let app2 := { app1 with current_turn := app1.current_turn + 1 }
    let app3 := { app2 with game := { app2.game with turns := app2.current_turn } }
    if app3.game.players.length ≤ 1 then
      (false, app3.finish_battle, k1)
    else
      (true, app3, k1)

/-- Driver looping `App.step_battle` until it reports the battle over, as
the presentation layer's auto-advance loop does (spec section 4.4); the
fuel argument bounds the iteration count, which suffices because the
stepper's turn cap stops every battle. -/
noncomputable def App.step_drive (roll : Nat → Int) :
    Nat → App → Nat → App
  | 0, app, _ => app
  | fuel + 1, app, k =>
    match App.step_battle roll k app with
    | (false, app', _) => app'
    | (true, app', k') => App.step_drive roll fuel app' k'

/-- src/serialization.rs: `pub struct LocationConfig`. -/
structure LocationConfig where
  x : ℝ
  y : ℝ
  z : ℝ

/-- src/serialization.rs: `pub struct PlayerConfig`. -/
structure PlayerConfig where
  name : String
  attack : Int
  defense : Int
  armor : Int
  power : Int
  speed : Int
  range : Int
  loc : LocationConfig

/-- src/serialization.rs: `impl From<&LocationConfig> for Location`. -/
def Location.fromConfig (config : LocationConfig) : Location :=
  Location.new config.x config.y config.z

/-- src/serialization.rs: `impl From<PlayerConfig> for Player` — a fresh
player whose six attributes are `set` to the configured values
(base = curr = value) and whose location is copied from the config. -/
def Player.fromConfig (config : PlayerConfig) : Player :=
  let player := Player.new config.name
  let player := { player with attack := player.attack.set config.attack }
  let player := { player with defense := player.defense.set config.defense }
  let player := { player with armor := player.armor.set config.armor }
  let player := { player with power := player.power.set config.power }
  let player := { player with speed := player.speed.set config.speed }
  let player := { player with range := player.range.set config.range }
  { player with loc := Location.fromConfig config.loc }

/-- Builder for concrete players used when instantiating theorems: each
attribute has base = curr = the given value, position (x, y, z).  This is
how `Player.fromConfig` populates a player from a configuration record. -/
def mk_player (name : String) (atk dfn arm pow spd rng : Int) (x y z : ℝ) : Player :=
  { name := name
    attack := { name := Attribute.Attack, base := atk, curr := atk }
    defense := { name := Attribute.Defense, base := dfn, curr := dfn }
    armor := { name := Attribute.Armor, base := arm, curr := arm }
    power := { name := Attribute.Power, base := pow, curr := pow }
    speed := { name := Attribute.Speed, base := spd, curr := spd }
    range := { name := Attribute.Range, base := rng, curr := rng }
    loc := { x := x, y := y, z := z } }

/-- Two players whose names differ and whose defenses exceed the other's
attack bonus plus 20 — the highest 1d20 roll — so no attack between them
can ever succeed.  This is the "engineered defense >> attack+20"
configuration of the turn-cap scenario. -/
def NoHit (a b : Player) : Prop :=
  a.name ≠ b.name ∧
  a.attack.bonus + 20 < b.defense.curr ∧
  b.attack.bonus + 20 < a.defense.curr

/-! ### Basic lemmas about the embedded operations -/

theorem Location.distance_self (l : Location) : l.distance l = 0 := by
  simp [Location.distance]

theorem f32MAX_pos : 0 < f32MAX := by
  unfold f32MAX
  norm_num

/-- Evaluate a square root from an exhibited square. -/
theorem sqrt_eval {a b : ℝ} (hb : 0 ≤ b) (h : b ^ 2 = a) : Real.sqrt a = b := by
  rw [← h]
  exact Real.sqrt_sq hb

theorem Player.move_towards_name (p : Player) (t : Location) :
    (p.move_towards t).name = p.name := by
  unfold Player.move_towards
  by_cases h : p.loc.distance t ≤ (p.speed.curr : ℝ) <;> simp [h]

theorem Player.move_towards_attack (p : Player) (t : Location) :
    (p.move_towards t).attack = p.attack := by
  unfold Player.move_towards
  by_cases h : p.loc.distance t ≤ (p.speed.curr : ℝ) <;> simp [h]

theorem Player.move_towards_defense (p : Player) (t : Location) :
    (p.move_towards t).defense = p.defense := by
  unfold Player.move_towards
  by_cases h : p.loc.distance t ≤ (p.speed.curr : ℝ) <;> simp [h]

theorem Player.move_towards_armor (p : Player) (t : Location) :
    (p.move_towards t).armor = p.armor := by
  unfold Player.move_towards
  by_cases h : p.loc.distance t ≤ (p.speed.curr : ℝ) <;> simp [h]

theorem Player.move_towards_z (p : Player) (t : Location) :
    (p.move_towards t).loc.z = p.loc.z := by
  unfold Player.move_towards
  by_cases h : p.loc.distance t ≤ (p.speed.curr : ℝ) <;> simp [h]

/-- On a singleton deque whose sole entry has a different name, the scan
selects that entry (its self-distance 0 beats `f32MAX`). -/
theorem get_nearest_pair (a b : Player) (h : a.name ≠ b.name) :
    Game.get_nearest a [b] = some (0, b) := by
  unfold Game.get_nearest get_nearest_go
  rw [if_pos h, if_pos]
  · rfl
  · rw [Location.distance_self]
    exact f32MAX_pos

/-! ### C1 — nearest-target selection -/

/-- C1: the nearest-target claim fails on the code: `Game::get_nearest`
(src/game.rs line 23) measures the distance from the source to itself —
always 0 — instead of to the scanned candidate, so the scan keeps the
first differently-named player it meets.  From "A" at the origin scanning
["B" at (10,0,0), "C" at (1,0,0)] it returns "B" (index 0), although "C"
is ten times closer.  The spec (design note on the nearest-target
distance computation) prescribes the genuine nearest-candidate distance,
so this is a defect of the code, not of the claim. -/
theorem C1_get_nearest_returns_first_not_nearest :
    Game.get_nearest (mk_player "A" 10 10 10 10 10 10 0 0 0)
        [mk_player "B" 10 10 10 10 10 10 10 0 0,
         mk_player "C" 10 10 10 10 10 10 1 0 0] =
      some (0, mk_player "B" 10 10 10 10 10 10 10 0 0) ∧
    (mk_player "A" 10 10 10 10 10 10 0 0 0).loc.distance
        (mk_player "C" 10 10 10 10 10 10 1 0 0).loc <
      (mk_player "A" 10 10 10 10 10 10 0 0 0).loc.distance
        (mk_player "B" 10 10 10 10 10 10 10 0 0).loc := by
  constructor
  · have hAB : ("A" : String) ≠ "B" := by decide
    have hAC : ("A" : String) ≠ "C" := by decide
    simp only [Game.get_nearest, get_nearest_go, mk_player,
      Location.distance_self]
    norm_num [f32MAX_pos, hAB, hAC]
  · have hC : (mk_player "A" 10 10 10 10 10 10 0 0 0).loc.distance
        (mk_player "C" 10 10 10 10 10 10 1 0 0).loc = 1 := by
      unfold Location.distance mk_player
      rw [show ((0 : ℝ) - 1) ^ 2 + ((0 : ℝ) - 0) ^ 2 + ((0 : ℝ) - 0) ^ 2 = 1 by norm_num]
      exact Real.sqrt_one
    have hB : (mk_player "A" 10 10 10 10 10 10 0 0 0).loc.distance
        (mk_player "B" 10 10 10 10 10 10 10 0 0).loc = 10 := by
      unfold Location.distance mk_player
      exact sqrt_eval (by norm_num) (by norm_num)
    rw [hB, hC]
    norm_num

/-! ### C3 — the attribute modifier curve -/

/-- For every integer `n`, the real floor of `n / 4` is integer division
by 4 (Lean's integer division rounds toward negative infinity). -/
theorem floor_intCast_div_four (n : Int) : ⌊(n : ℝ) / 4⌋ = n / 4 := by
  rw [Int.floor_eq_iff]
  constructor
  · rw [le_div_iff₀ (by norm_num : (0 : ℝ) < 4)]
    have h1 : n / 4 * 4 ≤ n := by omega
    exact_mod_cast h1
  · rw [div_lt_iff₀ (by norm_num : (0 : ℝ) < 4)]
    have h2 : n < (n / 4 + 1) * 4 := by omega
    exact_mod_cast h2

/-- C3 counterexample: the claim asserts that current = 12 yields bonus 1,
but the code's `(12 - 10.5) / 2 = 0.75` truncates toward zero to 0. -/
theorem C3_counterexample_bonus_at_12 :
    PlayerAttribute.bonus { name := Attribute.Attack, base := 12, curr := 12 } = 0 ∧
    (0 : Int) ≠ 1 := by
  decide

/-- C3 amended: `bonus()` is `(curr - 10.5) / 2` truncated toward zero
(floor for a nonnegative quotient, ceiling for a negative one); the
sample points are current = 10 → 0, 8 → -1, 12 → 0 (not 1 as claimed),
20 → 4. -/
theorem C3_bonus_truncates_toward_zero (a : PlayerAttribute) :
    (a.bonus =
      if 0 ≤ ((a.curr : ℝ) - 10.5) / 2 then ⌊((a.curr : ℝ) - 10.5) / 2⌋
      else ⌈((a.curr : ℝ) - 10.5) / 2⌉) ∧
    PlayerAttribute.bonus { name := Attribute.Attack, base := 10, curr := 10 } = 0 ∧
    PlayerAttribute.bonus { name := Attribute.Attack, base := 8, curr := 8 } = -1 ∧
    PlayerAttribute.bonus { name := Attribute.Attack, base := 12, curr := 12 } = 0 ∧
    PlayerAttribute.bonus { name := Attribute.Attack, base := 20, curr := 20 } = 4 := by
  refine ⟨?_, by decide, by decide, by decide, by decide⟩
  have hx : ((a.curr : ℝ) - 10.5) / 2 = ((2 * a.curr - 21 : ℤ) : ℝ) / 4 := by
    push_cast
    ring
  rw [hx]
  simp only [PlayerAttribute.bonus]
  by_cases hn : 0 ≤ (2 * a.curr - 21 : ℤ)
  · rw [if_pos hn, if_pos (div_nonneg (by exact_mod_cast hn) (by norm_num)),
      floor_intCast_div_four]
  · have hneg : ((2 * a.curr - 21 : ℤ) : ℝ) / 4 < 0 :=
      div_neg_of_neg_of_pos (by exact_mod_cast lt_of_not_le hn) (by norm_num)
    rw [if_neg hn, if_neg (not_le.mpr hneg)]
    have hflip : ((2 * a.curr - 21 : ℤ) : ℝ) / 4 =
        -(((-(2 * a.curr - 21) : ℤ) : ℝ) / 4) := by
      push_cast
      ring
    rw [hflip, Int.ceil_neg, floor_intCast_div_four]

/-! ### C4 — damage clamping -/

/-- C4: the engine's `Player::damage` (src/player.rs) clamps an amount
below 1 to zero applied damage and an untouched target, but the legacy
`Player::damage` in src/main.rs subtracts the raw amount unconditionally.
With `power.curr = 6` (bonus -2) and a 1d8 roll of 1 the amount is -1:
the engine returns 0 and leaves armor at 10, the main.rs variant returns
-1 and raises the target's armor from 10 to 11. -/
theorem C4_main_damage_not_clamped :
    (Player.damage (mk_player "M" 10 10 10 6 10 10 0 0 0)
        (mk_player "T" 10 10 10 10 10 10 0 0 0) 1).1 = 0 ∧
    (Player.damage (mk_player "M" 10 10 10 6 10 10 0 0 0)
        (mk_player "T" 10 10 10 10 10 10 0 0 0) 1).2.armor.curr = 10 ∧
    (Main.Player.damage (mk_player "M" 10 10 10 6 10 10 0 0 0)
        (mk_player "T" 10 10 10 10 10 10 0 0 0) 1).1 = -1 ∧
    (Main.Player.damage (mk_player "M" 10 10 10 6 10 10 0 0 0)
        (mk_player "T" 10 10 10 10 10 10 0 0 0) 1).2.armor.curr = 11 := by
  refine ⟨?_, ?_, ?_, ?_⟩ <;>
    norm_num [Player.damage, Main.Player.damage, PlayerAttribute.bonus, mk_player]

/-! ### C9 — configuration round-trip -/

/-- C9: converting a configuration record into a player preserves the
name verbatim, sets base = curr = the supplied value for each of the six
attributes, and copies the location coordinates exactly. -/
theorem C9_fromConfig_roundtrip (c : PlayerConfig) :
    (Player.fromConfig c).name = c.name ∧
    (Player.fromConfig c).attack.base = c.attack ∧
    (Player.fromConfig c).attack.curr = c.attack ∧
    (Player.fromConfig c).defense.base = c.defense ∧
    (Player.fromConfig c).defense.curr = c.defense ∧
    (Player.fromConfig c).armor.base = c.armor ∧
    (Player.fromConfig c).armor.curr = c.armor ∧
    (Player.fromConfig c).power.base = c.power ∧
    (Player.fromConfig c).power.curr = c.power ∧
    (Player.fromConfig c).speed.base = c.speed ∧
    (Player.fromConfig c).speed.curr = c.speed ∧
    (Player.fromConfig c).range.base = c.range ∧
    (Player.fromConfig c).range.curr = c.range ∧
    (Player.fromConfig c).loc.x = c.loc.x ∧
    (Player.fromConfig c).loc.y = c.loc.y ∧
    (Player.fromConfig c).loc.z = c.loc.z := by
  refine ⟨rfl, rfl, rfl, rfl, rfl, rfl, rfl, rfl, rfl, rfl, rfl, rfl, rfl,
    rfl, rfl, rfl⟩

/-! ### C5 — move_towards -/

/-- C5 counterexample: `move_towards` normalises only the x/y components
by the full 3-dimensional distance, so against a target displaced purely
in z ("Z" at the origin with speed 3, target (0,0,5), distance 5 > 3) the
position does not change at all and the new distance is 5, not
5 - 3 = 2 as the claim requires. -/
theorem C5_counterexample_vertical_target :
    ¬ (mk_player "Z" 10 10 10 10 3 10 0 0 0).loc.distance (Location.new 0 0 5) ≤
        ((mk_player "Z" 10 10 10 10 3 10 0 0 0).speed.curr : ℝ) ∧
    ((mk_player "Z" 10 10 10 10 3 10 0 0 0).move_towards
        (Location.new 0 0 5)).loc.distance (Location.new 0 0 5) ≠
      (mk_player "Z" 10 10 10 10 3 10 0 0 0).loc.distance (Location.new 0 0 5) -
        ((mk_player "Z" 10 10 10 10 3 10 0 0 0).speed.curr : ℝ) := by
  have hd : (mk_player "Z" 10 10 10 10 3 10 0 0 0).loc.distance
      (Location.new 0 0 5) = 5 := by
    simp only [mk_player, Location.new, Location.distance]
    exact sqrt_eval (by norm_num) (by norm_num)
  constructor
  · rw [hd]
    norm_num [mk_player]
  · have hmoved : ((mk_player "Z" 10 10 10 10 3 10 0 0 0).move_towards
        (Location.new 0 0 5)).loc.distance (Location.new 0 0 5) = 5 := by
      simp only [Player.move_towards]
      rw [hd, if_neg (by norm_num [mk_player])]
      simp only [mk_player, Location.new, Location.distance]
      norm_num
      exact sqrt_eval (by norm_num) (by norm_num)
    rw [hmoved, hd]
    norm_num [mk_player]

/-- C5 amended: provided the actor and the target lie in the same
horizontal plane (equal z — always the case in this program, which
randomises and configures z = 0) the claim holds: within step range the
position is fully unchanged, z is never modified, and otherwise — when
the positive distance exceeds `speed.curr` — the new distance to the
target is exactly the old distance minus `speed.curr`. -/
theorem C5_move_towards_coplanar (p : Player) (t : Location)
    (hz : p.loc.z = t.z) :
    (p.loc.distance t ≤ (p.speed.curr : ℝ) → p.move_towards t = p) ∧
    (p.move_towards t).loc.z = p.loc.z ∧
    ((p.speed.curr : ℝ) < p.loc.distance t → 0 < p.loc.distance t →
      (p.move_towards t).loc.distance t =
        p.loc.distance t - (p.speed.curr : ℝ)) := by
  refine ⟨?_, Player.move_towards_z p t, ?_⟩
  · intro h
    simp only [Player.move_towards]
    rw [if_pos h]
  · intro hlt hdpos
    have hdne : p.loc.distance t ≠ 0 := ne_of_gt hdpos
    have hd2 : (p.loc.x - t.x) ^ 2 + (p.loc.y - t.y) ^ 2 =
        p.loc.distance t ^ 2 := by
      have : p.loc.distance t ^ 2 =
          (p.loc.x - t.x) ^ 2 + (p.loc.y - t.y) ^ 2 + (p.loc.z - t.z) ^ 2 :=
        Real.sq_sqrt (by positivity)
      rw [this, hz, sub_self]
      ring
    have e1 : p.loc.x + (t.x - p.loc.x) / p.loc.distance t * (p.speed.curr : ℝ) - t.x =
        (p.loc.x - t.x) * ((p.loc.distance t - (p.speed.curr : ℝ)) / p.loc.distance t) := by
      field_simp
      ring
    have e2 : p.loc.y + (t.y - p.loc.y) / p.loc.distance t * (p.speed.curr : ℝ) - t.y =
        (p.loc.y - t.y) * ((p.loc.distance t - (p.speed.curr : ℝ)) / p.loc.distance t) := by
      field_simp
      ring
    simp only [Player.move_towards]
    rw [if_neg (not_le.mpr hlt)]
    show Real.sqrt
        ((p.loc.x + (t.x - p.loc.x) / p.loc.distance t * (p.speed.curr : ℝ) - t.x) ^ 2 +
          (p.loc.y + (t.y - p.loc.y) / p.loc.distance t * (p.speed.curr : ℝ) - t.y) ^ 2 +
          (p.loc.z - t.z) ^ 2) =
      p.loc.distance t - (p.speed.curr : ℝ)
    rw [e1, e2, hz, sub_self]
    have harg : ((p.loc.x - t.x) *
          ((p.loc.distance t - (p.speed.curr : ℝ)) / p.loc.distance t)) ^ 2 +
        ((p.loc.y - t.y) *
          ((p.loc.distance t - (p.speed.curr : ℝ)) / p.loc.distance t)) ^ 2 +
        (0 : ℝ) ^ 2 =
        (p.loc.distance t - (p.speed.curr : ℝ)) ^ 2 := by
      have expand : ((p.loc.x - t.x) *
            ((p.loc.distance t - (p.speed.curr : ℝ)) / p.loc.distance t)) ^ 2 +
          ((p.loc.y - t.y) *
            ((p.loc.distance t - (p.speed.curr : ℝ)) / p.loc.distance t)) ^ 2 +
          (0 : ℝ) ^ 2 =
          ((p.loc.distance t - (p.speed.curr : ℝ)) / p.loc.distance t) ^ 2 *
            ((p.loc.x - t.x) ^ 2 + (p.loc.y - t.y) ^ 2) := by
        ring
      rw [expand, hd2]
      field_simp
    rw [harg]
    exact Real.sqrt_sq (by linarith)

/-- C5 witness: "W" at the origin with speed 3 and target (5,0,0) at
distance 5 moves to distance exactly 5 - 3 = 2. -/
theorem C5_witness :
    (mk_player "W" 10 10 10 10 3 10 0 0 0).loc.z = (Location.new 5 0 0).z ∧
    ((mk_player "W" 10 10 10 10 3 10 0 0 0).speed.curr : ℝ) <
      (mk_player "W" 10 10 10 10 3 10 0 0 0).loc.distance (Location.new 5 0 0) ∧
    ((mk_player "W" 10 10 10 10 3 10 0 0 0).move_towards
        (Location.new 5 0 0)).loc.distance (Location.new 5 0 0) =
      (mk_player "W" 10 10 10 10 3 10 0 0 0).loc.distance (Location.new 5 0 0) -
        ((mk_player "W" 10 10 10 10 3 10 0 0 0).speed.curr : ℝ) := by
  have hd : (mk_player "W" 10 10 10 10 3 10 0 0 0).loc.distance
      (Location.new 5 0 0) = 5 := by
    simp only [mk_player, Location.new, Location.distance]
    exact sqrt_eval (by norm_num) (by norm_num)
  have hlt : ((mk_player "W" 10 10 10 10 3 10 0 0 0).speed.curr : ℝ) <
      (mk_player "W" 10 10 10 10 3 10 0 0 0).loc.distance (Location.new 5 0 0) := by
    rw [hd]
    norm_num [mk_player]
  exact ⟨rfl, hlt,
    (C5_move_towards_coplanar (mk_player "W" 10 10 10 10 3 10 0 0 0)
        (Location.new 5 0 0) rfl).2.2 hlt (by rw [hd]; norm_num)⟩

/-! ### C8 — the bounded battle log -/

/-- The eviction loop of `add_battle_event` drops exactly the surplus
entries from the front. -/
theorem trim_log_eq_drop (l : List BattleEvent) (max : Nat) :
    trim_log l max = l.drop (l.length - max) := by
  induction l with
  | nil => simp [trim_log]
  | cons e t ih =>
    unfold trim_log
    by_cases h : max < (e :: t).length
    · rw [if_pos h]
      simp only [List.tail_cons]
      rw [ih]
      have hidx : (e :: t).length - max = (t.length - max) + 1 := by
        simp only [List.length_cons] at h ⊢
        omega
      rw [hidx, List.drop_succ_cons]
    · rw [if_neg h]
      have hidx : (e :: t).length - max = 0 := by
        simp only [List.length_cons] at h ⊢
        omega
      rw [hidx, List.drop_zero]

/-- Folding `add_battle_event` over a list of (message, kind) pairs from
any app whose log is within bounds keeps the suffix of the emitted
events (prefixed by the surviving old entries), in emission order. -/
theorem foldl_add_battle_event_log (evs : List (String × BattleEventType)) :
    ∀ a : App, a.battle_log.length ≤ a.max_log_entries →
      (List.foldl (fun app e => app.add_battle_event e.1 e.2) a evs).battle_log =
        (a.battle_log ++ evs.map (fun e =>
            ({ turn := a.current_turn, message := e.1,
               event_type := e.2 } : BattleEvent))).drop
          ((a.battle_log.length + evs.length) - a.max_log_entries) := by
  induction evs with
  | nil =>
    intro a ha
    simp [Nat.sub_eq_zero_of_le ha]
  | cons e evs ih =>
    intro a ha
    rw [List.foldl_cons]
    have hlog : (a.add_battle_event e.1 e.2).battle_log =
        (a.battle_log ++
            [({ turn := a.current_turn, message := e.1,
                event_type := e.2 } : BattleEvent)]).drop
          ((a.battle_log.length + 1) - a.max_log_entries) := by
      simp only [App.add_battle_event]
      rw [trim_log_eq_drop]
      simp
    have hturn : (a.add_battle_event e.1 e.2).current_turn = a.current_turn := rfl
    have hmax : (a.add_battle_event e.1 e.2).max_log_entries = a.max_log_entries := rfl
    have hbound : (a.add_battle_event e.1 e.2).battle_log.length ≤
        (a.add_battle_event e.1 e.2).max_log_entries := by
      rw [hlog, hmax, List.length_drop]
      simp only [List.length_append, List.length_cons, List.length_nil]
      omega
    rw [ih _ hbound, hlog, hturn, hmax, List.map_cons]
    rw [List.length_drop]
    simp only [List.length_append, List.length_cons, List.length_nil]
    rw [← List.drop_append_of_le_length
      (by simp only [List.length_append, List.length_cons, List.length_nil]; omega),
      List.drop_drop, List.append_assoc, List.singleton_append]
    congr 1
    omega

/-- C8: starting from an empty log, emitting `max_log_entries + k` events
(k > 0) through `add_battle_event` leaves exactly the `max_log_entries`
most recent events, in emission order, the oldest discarded first; and
after any single call the log length never exceeds `max_log_entries`. -/
theorem C8_bounded_battle_log (app : App) (evs : List (String × BattleEventType))
    (k : Nat) (h0 : app.battle_log = [])
    (hlen : evs.length = app.max_log_entries + k) (hk : 0 < k) :
    (List.foldl (fun a e => a.add_battle_event e.1 e.2) app evs).battle_log =
      (evs.map (fun e => ({ turn := app.current_turn, message := e.1,
                            event_type := e.2 } : BattleEvent))).drop k ∧
    (List.foldl (fun a e => a.add_battle_event e.1 e.2) app evs).battle_log.length =
      app.max_log_entries ∧
    (∀ (a : App) (m : String) (ty : BattleEventType),
      (a.add_battle_event m ty).battle_log.length ≤ a.max_log_entries) := by
  have hfold := foldl_add_battle_event_log evs app (by rw [h0]; simp)
  rw [h0] at hfold
  simp only [List.nil_append, List.length_nil, Nat.zero_add] at hfold
  rw [hlen] at hfold
  have hidx : app.max_log_entries + k - app.max_log_entries = k := by omega
  rw [hidx] at hfold
  refine ⟨hfold, ?_, ?_⟩
  · rw [hfold, List.length_drop, List.length_map, hlen]
    omega
  · intro a m ty
    have : (a.add_battle_event m ty).battle_log =
        trim_log (a.battle_log ++
          [({ turn := a.current_turn, message := m,
              event_type := ty } : BattleEvent)]) a.max_log_entries := rfl
    rw [this, trim_log_eq_drop, List.length_drop]
    omega

/-- C8 witness: with the cap lowered to 1 and two events emitted from an
empty log, exactly one event — the most recent — survives. -/
theorem C8_witness :
    ({ App.new with max_log_entries := 1 } : App).battle_log = [] ∧
    ([(("one" : String), BattleEventType.Info), ("two", BattleEventType.Info)].length
      = ({ App.new with max_log_entries := 1 } : App).max_log_entries + 1) ∧
    (List.foldl (fun a e => a.add_battle_event e.1 e.2)
        ({ App.new with max_log_entries := 1 } : App)
        [("one", BattleEventType.Info), ("two", BattleEventType.Info)]).battle_log.length =
      ({ App.new with max_log_entries := 1 } : App).max_log_entries := by
  refine ⟨rfl, rfl, ?_⟩
  exact (C8_bounded_battle_log ({ App.new with max_log_entries := 1 })
    [("one", BattleEventType.Info), ("two", BattleEventType.Info)] 1
    rfl rfl (by decide)).2.1

/-! ### C7 — empty or single-survivor entry -/

theorem App.add_battle_event_game (a : App) (m : String) (ty : BattleEventType) :
    (a.add_battle_event m ty).game = a.game := rfl

theorem App.add_battle_event_current_turn (a : App) (m : String)
    (ty : BattleEventType) : (a.add_battle_event m ty).current_turn =
      a.current_turn := rfl

theorem App.add_battle_event_state (a : App) (m : String) (ty : BattleEventType) :
    (a.add_battle_event m ty).state = a.state := rfl

theorem App.finish_battle_game (a : App) : a.finish_battle.game = a.game := by
  simp only [App.finish_battle]
  split
  · split <;> rfl
  · rfl

theorem App.finish_battle_current_turn (a : App) :
    a.finish_battle.current_turn = a.current_turn := by
  simp only [App.finish_battle]
  split
  · split <;> rfl
  · rfl

theorem App.finish_battle_state (a : App) :
    a.finish_battle.state = AppState.Finished := by
  simp only [App.finish_battle]
  split
  · split <;> rfl
  · rfl

/-- With at most one live player, `step_battle` reports the battle over
immediately and only runs `finish_battle`. -/
theorem App.step_battle_of_le_one (roll : Nat → Int) (k : Nat) (app : App)
    (h : app.game.players.length ≤ 1) :
    App.step_battle roll k app = (false, app.finish_battle, k) := by
  unfold App.step_battle
  rw [if_pos h]

/-- C7: with one player or none at entry the headless loop executes zero
turns (returning turn count 0 from `turns = 0`) and leaves the collection
unchanged; the stepper likewise answers `false` without touching the
players or the turn counter, and a sole remaining player is the winner
reported by `get_winner`. -/
theorem C7_trivial_battle_is_noop (roll : Nat → Int) (k : Nat) (s : Game)
    (app : App) (hs : s.players.length ≤ 1) (ht : s.turns = 0)
    (ha : app.game.players.length ≤ 1) :
    Game.run_simulation roll s k = some (0, s.players) ∧
    (App.step_battle roll k app).1 = false ∧
    (App.step_battle roll k app).2.1.game.players = app.game.players ∧
    (App.step_battle roll k app).2.1.current_turn = app.current_turn ∧
    (app.game.players.length = 1 →
      (App.step_battle roll k app).2.1.get_winner = app.game.players.head?) := by
  have hrun : Game.run_simulation roll s k = some (s.turns, s.players) := by
    unfold Game.run_simulation
    rw [if_neg (by omega)]
  have hstep := App.step_battle_of_le_one roll k app ha
  refine ⟨by rw [hrun, ht], by rw [hstep], ?_, ?_, ?_⟩
  · rw [hstep]
    show app.finish_battle.game.players = app.game.players
    rw [App.finish_battle_game]
  · rw [hstep]
    show app.finish_battle.current_turn = app.current_turn
    rw [App.finish_battle_current_turn]
  · intro h1
    rw [hstep]
    show app.finish_battle.get_winner = app.game.players.head?
    unfold App.get_winner
    rw [App.finish_battle_game, if_pos h1]

/-- C7 witness: a one-player battle returns zero turns with the
collection intact, and the stepper reports it over at once. -/
theorem C7_witness :
    (({ turns := 0, players := [mk_player "S" 10 10 10 10 10 10 0 0 0] } : Game).players.length ≤ 1) ∧
    Game.run_simulation (fun _ => 1)
        { turns := 0, players := [mk_player "S" 10 10 10 10 10 10 0 0 0] } 0 =
      some (0, [mk_player "S" 10 10 10 10 10 10 0 0 0]) ∧
    (App.step_battle (fun _ => 1) 0
        { App.new with game :=
          { turns := 0, players := [mk_player "S" 10 10 10 10 10 10 0 0 0] } }).1 =
      false ∧
    (App.step_battle (fun _ => 1) 0
        { App.new with game :=
          { turns := 0, players := [mk_player "S" 10 10 10 10 10 10 0 0 0] } }).2.1.get_winner =
      some (mk_player "S" 10 10 10 10 10 10 0 0 0) := by
  have h := C7_trivial_battle_is_noop (fun _ => 1) 0
    { turns := 0, players := [mk_player "S" 10 10 10 10 10 10 0 0 0] }
    { App.new with game :=
      { turns := 0, players := [mk_player "S" 10 10 10 10 10 10 0 0 0] } }
    (by simp) rfl (by simp)
  exact ⟨by simp, h.1, h.2.1, by rw [h.2.2.2.2 (by simp)]; rfl⟩

/-! ### C10 — no simultaneous elimination -/

/-- One engine turn removes at most one player: the resulting deque holds
either all of `rest` plus the re-queued actor, or one player fewer. -/
theorem run_turn_length (roll : Nat → Int) (k : Nat) (active : Player)
    (rest : List Player) :
    ∀ r ∈ Game.run_turn roll k active rest,
      r.1.length = rest.length + 1 ∨ r.1.length = rest.length := by
  intro r hr
  simp only [Game.run_turn] at hr
  split at hr
  · simp at hr
  · split at hr
    · split at hr
      · split at hr
        · simp only [Option.mem_def, Option.some.injEq] at hr
          subst hr
          simp [List.length_eraseIdx]
          split <;> omega
        · simp only [Option.mem_def, Option.some.injEq] at hr
          subst hr
          simp
      · simp only [Option.mem_def, Option.some.injEq] at hr
        subst hr
        simp
    · simp only [Option.mem_def, Option.some.injEq] at hr
      subst hr
      simp

/-- The headless loop never loses its last player: any result's deque is
nonempty whenever the initial deque is. -/
theorem run_simulation_length_pos (roll : Nat → Int) :
    ∀ (n : Nat) (s : Game) (k : Nat), (MAX_TURNS + 1 - s.turns).toNat = n →
      1 ≤ s.players.length →
      ∀ r ∈ Game.run_simulation roll s k, 1 ≤ r.2.length := by
  intro n
  induction n using Nat.strong_induction_on with
  | _ n ih =>
    intro s k hn hpos r hr
    unfold Game.run_simulation at hr
    split at hr
    · rename_i hlen
      split at hr
      · simp at hr
      · rename_i active rest heqps
        split at hr
        · simp at hr
        · rename_i players' k' hrt
          have h2 := run_turn_length roll k active rest (players', k')
            (by rw [hrt]; rfl)
          simp only at h2
          have hrest : 1 ≤ rest.length := by
            rw [heqps, List.length_cons] at hlen
            omega
          have hplen : 1 ≤ players'.length := by omega
          have hr' : r ∈ (if MAX_TURNS < s.turns + 1 then
              some (s.turns + 1, players')
            else Game.run_simulation roll
              { turns := s.turns + 1, players := players' } k') := hr
          split at hr'
          · simp only [Option.mem_def, Option.some.injEq] at hr'
            subst hr'
            exact hplen
          · rename_i hcap
            refine ih (MAX_TURNS + 1 - (s.turns + 1)).toNat ?_
              { turns := s.turns + 1, players := players' } k' rfl hplen r hr'
            simp only [MAX_TURNS] at hn hcap ⊢
            omega
    · simp only [Option.mem_def, Option.some.injEq] at hr
      subst hr
      exact hpos

/-- One stepper action either leaves the players untouched or rebuilds
the deque as some list with the acting player pushed to the back. -/
theorem step_act_players_shape (roll : Nat → Int) (k : Nat) (app : App) :
    (App.step_act roll k app).1.game.players = app.game.players ∨
    ∃ l p, (App.step_act roll k app).1.game.players = l ++ [p] := by
  simp only [App.step_act]
  repeat' split
  all_goals
    first
    | exact Or.inl rfl
    | exact Or.inr ⟨_, _, rfl⟩

theorem step_act_current_turn (roll : Nat → Int) (k : Nat) (app : App) :
    (App.step_act roll k app).1.current_turn = app.current_turn := by
  simp only [App.step_act]
  repeat' split
  all_goals rfl

/-- Unfolding of `step_battle` in the running case (more than one player,
cap not reached). -/
theorem App.step_battle_of_running (roll : Nat → Int) (k : Nat) (app : App)
    (h1 : ¬ app.game.players.length ≤ 1) (h2 : ¬ MAX_TURNS ≤ app.current_turn) :
    App.step_battle roll k app =
      (let acted := App.step_act roll k app
       let app1 := acted.1
       let k1 := acted.2
       let app2 := { app1 with current_turn := app1.current_turn + 1 }
       let app3 := { app2 with game := { app2.game with turns := app2.current_turn } }
       if app3.game.players.length ≤ 1 then
         (false, app3.finish_battle, k1)
       else
         (true, app3, k1)) := by
  unfold App.step_battle
  rw [if_neg h1, if_neg h2]

/-- The stepper never loses its last player either. -/
theorem step_battle_players_length (roll : Nat → Int) (k : Nat) (app : App)
    (h : 1 ≤ app.game.players.length) :
    1 ≤ (App.step_battle roll k app).2.1.game.players.length := by
  by_cases h1 : app.game.players.length ≤ 1
  · rw [App.step_battle_of_le_one roll k app h1]
    show 1 ≤ app.finish_battle.game.players.length
    rw [App.finish_battle_game]
    exact h
  · by_cases h2 : MAX_TURNS ≤ app.current_turn
    · unfold App.step_battle
      rw [if_neg h1, if_pos h2]
      show 1 ≤ (App.finish_battle _).game.players.length
      rw [App.finish_battle_game, App.add_battle_event_game]
      exact h
    · rw [App.step_battle_of_running roll k app h1 h2]
      have hshape := step_act_players_shape roll k app
      have hlen : 1 ≤ (App.step_act roll k app).1.game.players.length := by
        rcases hshape with h' | ⟨l, p, h'⟩
        · rw [h']
          exact h
        · rw [h']
          simp
      dsimp only
      split
      · show 1 ≤ (App.finish_battle _).game.players.length
        rw [App.finish_battle_game]
        exact hlen
      · exact hlen

/-- C10: each turn removes at most one player and only runs when at least
two are present, so from a nonempty deque the live-player count can never
reach zero: both the headless loop and the stepper always keep at least
one player, making the zero-survivor termination case unreachable. -/
theorem C10_no_simultaneous_elimination (roll : Nat → Int) (k : Nat) :
    (∀ (active : Player) (rest : List Player),
      ∀ r ∈ Game.run_turn roll k active rest,
        r.1.length = rest.length + 1 ∨ r.1.length = rest.length) ∧
    (∀ s : Game, 1 ≤ s.players.length →
      ∀ r ∈ Game.run_simulation roll s k, 1 ≤ r.2.length) ∧
    (∀ app : App, 1 ≤ app.game.players.length →
      1 ≤ (App.step_battle roll k app).2.1.game.players.length) := by
  refine ⟨fun active rest => run_turn_length roll k active rest, ?_,
    fun app h => step_battle_players_length roll k app h⟩
  intro s h r hr
  exact run_simulation_length_pos roll (MAX_TURNS + 1 - s.turns).toNat s k rfl h r hr

/-- C10 witness: a two-player step keeps at least one player. -/
theorem C10_witness :
    (1 ≤ ({ App.new with
              game := { turns := 0,
                        players := [mk_player "P" 10 10 10 10 10 10 0 0 0,
                          mk_player "Q" 10 10 10 10 10 10 1 0 0] } } : App).game.players.length) ∧
    1 ≤ (App.step_battle (fun _ => 1) 0
        { App.new with
            game := { turns := 0,
                      players := [mk_player "P" 10 10 10 10 10 10 0 0 0,
                        mk_player "Q" 10 10 10 10 10 10 1 0 0] } }).2.1.game.players.length := by
  refine ⟨by simp, ?_⟩
  exact (C10_no_simultaneous_elimination (fun _ => 1) 0).2.2 _ (by simp)

/-! ### C6 — dead players leave the deque in the turn they die -/

/-- Setting an index and then erasing that same index is just erasing it. -/
theorem eraseIdx_set (l : List Player) (i : Nat) (b : Player) :
    (l.set i b).eraseIdx i = l.eraseIdx i := by
  induction l generalizing i with
  | nil => rfl
  | cons a t ih =>
    cases i with
    | zero => rfl
    | succ j =>
      simp only [List.set_cons_succ, List.eraseIdx_cons_succ, ih]

/-- One engine turn preserves the armor invariant: every player still in
the deque afterwards has `armor.curr ≥ 1` (a target whose armor fell
below 1 is removed in the same turn). -/
theorem run_turn_armor_inv (roll : Nat → Int) (k : Nat) (active : Player)
    (rest : List Player) (hinv : ∀ p ∈ active :: rest, 1 ≤ p.armor.curr) :
    ∀ r ∈ Game.run_turn roll k active rest, ∀ p ∈ r.1, 1 ≤ p.armor.curr := by
  intro r hr
  have hact : 1 ≤ active.armor.curr := hinv active (List.mem_cons_self _ _)
  have hrest : ∀ p ∈ rest, 1 ≤ p.armor.curr := fun p hp =>
    hinv p (List.mem_cons_of_mem _ hp)
  simp only [Game.run_turn] at hr
  split at hr
  · simp at hr
  · rename_i idx nearest heq
    split at hr
    · split at hr
      · split at hr
        · rename_i hdead
          simp only [Option.mem_def, Option.some.injEq] at hr
          subst hr
          intro p hp
          dsimp only at hp
          rw [eraseIdx_set] at hp
          rcases List.mem_append.mp hp with hp | hp
          · exact hrest p (List.mem_of_mem_eraseIdx hp)
          · rw [List.mem_singleton.mp hp]
            exact hact
        · rename_i hndead
          simp only [Option.mem_def, Option.some.injEq] at hr
          subst hr
          intro p hp
          dsimp only at hp
          rcases List.mem_append.mp hp with hp | hp
          · rcases List.mem_or_eq_of_mem_set hp with hp | hp
            · exact hrest p hp
            · rw [hp]
              simp only [Player.is_dead, not_lt] at hndead
              exact hndead
          · rw [List.mem_singleton.mp hp]
            exact hact
      · simp only [Option.mem_def, Option.some.injEq] at hr
        subst hr
        intro p hp
        dsimp only at hp
        rcases List.mem_append.mp hp with hp | hp
        · exact hrest p hp
        · rw [List.mem_singleton.mp hp]
          exact hact
    · simp only [Option.mem_def, Option.some.injEq] at hr
      subst hr
      intro p hp
      dsimp only at hp
      rcases List.mem_append.mp hp with hp | hp
      · exact hrest p hp
      · rw [List.mem_singleton.mp hp, Player.move_towards_armor]
        exact hact

/-- One stepper action preserves the armor invariant. -/
theorem step_act_armor_inv (roll : Nat → Int) (k : Nat) (app : App)
    (hinv : ∀ p ∈ app.game.players, 1 ≤ p.armor.curr) :
    ∀ p ∈ (App.step_act roll k app).1.game.players, 1 ≤ p.armor.curr := by
  intro p hp
  simp only [App.step_act] at hp
  split at hp
  · exact hinv p hp
  · rename_i active rest heqps
    rw [heqps] at hinv
    have hact : 1 ≤ active.armor.curr := hinv active (List.mem_cons_self _ _)
    have hrest : ∀ q ∈ rest, 1 ≤ q.armor.curr := fun q hq =>
      hinv q (List.mem_cons_of_mem _ hq)
    split at hp
    · dsimp only at hp
      rcases List.mem_append.mp hp with hp | hp
      · exact hrest p hp
      · rw [List.mem_singleton.mp hp]
        exact hact
    · rename_i target_idx tgt heqn
      split at hp
      · split at hp
        · dsimp only at hp
          rcases List.mem_append.mp hp with hp | hp
          · exact hrest p hp
          · rw [List.mem_singleton.mp hp]
            exact hact
        · rename_i i2 nearest heqn2
          split at hp
          · split at hp
            · rename_i hdead
              dsimp only at hp
              rw [eraseIdx_set] at hp
              rcases List.mem_append.mp hp with hp | hp
              · exact hrest p (List.mem_of_mem_eraseIdx hp)
              · rw [List.mem_singleton.mp hp]
                exact hact
            · rename_i hndead
              dsimp only at hp
              rcases List.mem_append.mp hp with hp | hp
              · rcases List.mem_or_eq_of_mem_set hp with hp | hp
                · exact hrest p hp
                · rw [hp]
                  simp only [Player.is_dead, not_lt] at hndead
                  exact hndead
              · rw [List.mem_singleton.mp hp]
                exact hact
          · dsimp only at hp
            rcases List.mem_append.mp hp with hp | hp
            · exact hrest p hp
            · rw [List.mem_singleton.mp hp]
              exact hact
      · dsimp only at hp
        rcases List.mem_append.mp hp with hp | hp
        · exact hrest p hp
        · rw [List.mem_singleton.mp hp, Player.move_towards_armor]
          exact hact

/-- C6: if every player has `armor.curr ≥ 1` before a turn, every player
still present after that turn does too — in both the headless engine turn
and the stepper's single step, a player whose armor drops below 1 is
removed within the very turn it took the damage, never left for later. -/
theorem C6_armor_invariant_per_turn (roll : Nat → Int) (k : Nat)
    (active : Player) (rest : List Player)
    (hinv : ∀ p ∈ active :: rest, 1 ≤ p.armor.curr) :
    (∀ r ∈ Game.run_turn roll k active rest, ∀ p ∈ r.1, 1 ≤ p.armor.curr) ∧
    (∀ app : App, (∀ p ∈ app.game.players, 1 ≤ p.armor.curr) →
      ∀ p ∈ (App.step_battle roll k app).2.1.game.players, 1 ≤ p.armor.curr) := by
  refine ⟨run_turn_armor_inv roll k active rest hinv, ?_⟩
  intro app hinvA p hp
  by_cases h1 : app.game.players.length ≤ 1
  · rw [App.step_battle_of_le_one roll k app h1] at hp
    dsimp only at hp
    rw [App.finish_battle_game] at hp
    exact hinvA p hp
  · by_cases h2 : MAX_TURNS ≤ app.current_turn
    · unfold App.step_battle at hp
      rw [if_neg h1, if_pos h2] at hp
      dsimp only at hp
      rw [App.finish_battle_game, App.add_battle_event_game] at hp
      exact hinvA p hp
    · rw [App.step_battle_of_running roll k app h1 h2] at hp
      dsimp only at hp
      split at hp
      · rw [App.finish_battle_game] at hp
        exact step_act_armor_inv roll k app hinvA p hp
      · exact step_act_armor_inv roll k app hinvA p hp

/-- C6 witness: a concrete two-player turn keeps the armor invariant. -/
theorem C6_witness :
    (∀ p ∈ mk_player "A" 10 21 10 10 10 10 0 0 0 ::
        [mk_player "B" 10 21 10 10 10 10 1 0 0], 1 ≤ p.armor.curr) ∧
    (∀ r ∈ Game.run_turn (fun _ => 1) 0 (mk_player "A" 10 21 10 10 10 10 0 0 0)
        [mk_player "B" 10 21 10 10 10 10 1 0 0],
      ∀ p ∈ r.1, 1 ≤ p.armor.curr) := by
  have hinv : ∀ p ∈ mk_player "A" 10 21 10 10 10 10 0 0 0 ::
      [mk_player "B" 10 21 10 10 10 10 1 0 0], 1 ≤ p.armor.curr := by
    intro p hp
    rcases List.mem_cons.mp hp with hp | hp
    · rw [hp]
      decide
    · rw [List.mem_singleton.mp hp]
      decide
  exact ⟨hinv, (C6_armor_invariant_per_turn (fun _ => 1) 0
    (mk_player "A" 10 21 10 10 10 10 0 0 0)
    [mk_player "B" 10 21 10 10 10 10 1 0 0] hinv).1⟩

/-! ### C2 — the turn cap -/

/-- Under `NoHit`, every attack roll in range misses. -/
theorem attack_misses (a b : Player) (r : Int) (hr : r ≤ 20)
    (h : a.attack.bonus + 20 < b.defense.curr) : ¬ a.attackHits b r := by
  simp only [Player.attackHits, ge_iff_le, not_le]
  omega

/-- A no-hit turn between two players swaps the deque and touches at most
the actor's position; `NoHit` carries over to the swapped pair. -/
theorem run_turn_nohit (roll : Nat → Int)
    (hroll : ∀ n, 1 ≤ roll n ∧ roll n ≤ 20) (k : Nat) (a b : Player)
    (h : NoHit a b) :
    ∃ a' k', Game.run_turn roll k a [b] = some ([b, a'], k') ∧ NoHit b a' := by
  obtain ⟨hn, h1, h2⟩ := h
  have hmiss : ¬ a.attackHits b (roll k) := attack_misses a b (roll k) (hroll k).2 h1
  simp only [Game.run_turn, get_nearest_pair a b hn]
  by_cases hir : a.in_range b.loc
  · rw [if_pos hir, if_neg hmiss]
    exact ⟨a, k + 1, rfl, Ne.symm hn, h2, h1⟩
  · rw [if_neg hir]
    refine ⟨a.move_towards b.loc, k, rfl, ?_, ?_, ?_⟩
    · rw [Player.move_towards_name]
      exact Ne.symm hn
    · rw [Player.move_towards_defense]
      exact h2
    · rw [Player.move_towards_attack]
      exact h1

/-- In a two-player battle where no attack can succeed, the headless loop
runs until the counter first exceeds the cap and reports exactly
`MAX_TURNS + 1`. -/
theorem run_simulation_nohit (roll : Nat → Int)
    (hroll : ∀ n, 1 ≤ roll n ∧ roll n ≤ 20) :
    ∀ (n : Nat) (t : Int) (a b : Player) (k : Nat), NoHit a b →
      t + n = MAX_TURNS + 1 → 1 ≤ n →
      ∃ ps, Game.run_simulation roll { turns := t, players := [a, b] } k =
        some (MAX_TURNS + 1, ps) := by
  intro n
  induction n with
  | zero =>
    intro t a b k _ _ h
    omega
  | succ m ih =>
    intro t a b k hnh ht _
    obtain ⟨a', k', hturn, hnh'⟩ := run_turn_nohit roll hroll k a b hnh
    unfold Game.run_simulation
    rw [if_pos (by simp)]
    simp only [hturn]
    by_cases hcap : MAX_TURNS < t + 1
    · rw [if_pos hcap]
      refine ⟨[b, a'], ?_⟩
      rw [show t + 1 = MAX_TURNS + 1 by simp only [MAX_TURNS] at hcap ht ⊢; omega]
    · rw [if_neg hcap]
      exact ih (t + 1) b a' k' hnh'
        (by simp only [MAX_TURNS] at ht ⊢; omega)
        (by simp only [MAX_TURNS] at hcap ht ⊢; omega)

/-- A no-hit stepper action swaps the two players (possibly moving the
actor) and preserves `NoHit`. -/
theorem step_act_nohit (roll : Nat → Int)
    (hroll : ∀ n, 1 ≤ roll n ∧ roll n ≤ 20) (k : Nat) (app : App)
    (a b : Player) (hp : app.game.players = [a, b]) (hnh : NoHit a b) :
    ∃ a', (App.step_act roll k app).1.game.players = [b, a'] ∧ NoHit b a' := by
  obtain ⟨hn, h1, h2⟩ := hnh
  have hmiss : ¬ a.attackHits b (roll k) := attack_misses a b (roll k) (hroll k).2 h1
  simp only [App.step_act, hp, get_nearest_pair a b hn]
  by_cases hir : a.in_range b.loc
  · rw [if_pos hir, if_neg hmiss]
    exact ⟨a, rfl, Ne.symm hn, h2, h1⟩
  · rw [if_neg hir]
    refine ⟨a.move_towards b.loc, rfl, ?_, ?_, ?_⟩
    · rw [Player.move_towards_name]
      exact Ne.symm hn
    · rw [Player.move_towards_defense]
      exact h2
    · rw [Player.move_towards_attack]
      exact h1

/-- A no-hit step below the cap continues the battle: `step_battle`
answers `true`, swaps the pair, and advances the counter by one. -/
theorem step_battle_nohit (roll : Nat → Int)
    (hroll : ∀ n, 1 ≤ roll n ∧ roll n ≤ 20) (k : Nat) (app : App)
    (a b : Player) (hp : app.game.players = [a, b]) (hnh : NoHit a b)
    (hcap : app.current_turn < MAX_TURNS) :
    ∃ a' app' k', App.step_battle roll k app = (true, app', k') ∧
      app'.game.players = [b, a'] ∧ NoHit b a' ∧
      app'.current_turn = app.current_turn + 1 := by
  obtain ⟨a', hps, hnh'⟩ := step_act_nohit roll hroll k app a b hp hnh
  rw [App.step_battle_of_running roll k app (by rw [hp]; norm_num) (by omega)]
  dsimp only
  rw [hps]
  rw [if_neg (by norm_num)]
  refine ⟨a', _, _, rfl, ?_, hnh', ?_⟩
  · rfl
  · dsimp only
    rw [step_act_current_turn]

/-- Driving the stepper to completion on a no-hit two-player battle stops
with the counter at exactly `MAX_TURNS` (the cap pre-check refuses a new
turn once the counter reaches the cap) and the battle marked finished. -/
theorem step_drive_nohit (roll : Nat → Int)
    (hroll : ∀ n, 1 ≤ roll n ∧ roll n ≤ 20) :
    ∀ (fuel : Nat) (app : App) (a b : Player) (k : Nat),
      app.game.players = [a, b] → NoHit a b →
      app.current_turn ≤ MAX_TURNS →
      MAX_TURNS + 1 ≤ app.current_turn + (fuel : Int) →
      (App.step_drive roll fuel app k).current_turn = MAX_TURNS ∧
      (App.step_drive roll fuel app k).state = AppState.Finished := by
  intro fuel
  induction fuel with
  | zero =>
    intro app a b k hp hnh hle hfuel
    exfalso
    simp only [Nat.cast_zero, add_zero] at hfuel
    omega
  | succ m ih =>
    intro app a b k hp hnh hle hfuel
    by_cases hcap : app.current_turn < MAX_TURNS
    · obtain ⟨a', app', k', hstep, hp', hnh', hct'⟩ :=
        step_battle_nohit roll hroll k app a b hp hnh hcap
      unfold App.step_drive
      rw [hstep]
      refine ih app' b a' k' hp' hnh' (by omega) ?_
      rw [hct']
      push_cast at hfuel ⊢
      omega
    · have hct : app.current_turn = MAX_TURNS := by omega
      have hstep : App.step_battle roll k app =
          (false,
            (app.add_battle_event
              ("Battle reached maximum turns: " ++ toString MAX_TURNS)
              BattleEventType.Info).finish_battle, k) := by
        unfold App.step_battle
        rw [if_neg (by rw [hp]; norm_num), if_pos hct.symm.le]
      unfold App.step_drive
      rw [hstep]
      refine ⟨?_, ?_⟩
      · show ((app.add_battle_event
            ("Battle reached maximum turns: " ++ toString MAX_TURNS)
            BattleEventType.Info).finish_battle).current_turn = MAX_TURNS
        rw [App.finish_battle_current_turn, App.add_battle_event_current_turn, hct]
      · show ((app.add_battle_event
            ("Battle reached maximum turns: " ++ toString MAX_TURNS)
            BattleEventType.Info).finish_battle).state = AppState.Finished
        rw [App.finish_battle_state]

/-- C2 counterexample: the claim also covers the stepper
(src/app.rs `step_battle`, one of its cited sources), but the stepper's
cap pre-check `current_turn >= MAX_TURNS` refuses to start a turn once
the counter reaches the cap: a concrete no-hit two-player battle driven
to completion finishes with the counter at `MAX_TURNS` = 256, not
`MAX_TURNS + 1` as the claim states for "the simulation". -/
theorem C2_counterexample_stepper_cap :
    (App.step_drive (fun _ => 1) 300
        { App.new with
            game := { turns := 0,
                      players := [mk_player "A" 10 22 10 10 10 10 0 0 0,
                        mk_player "B" 10 22 10 10 10 10 1 0 0] } } 0).current_turn =
      MAX_TURNS ∧
    (App.step_drive (fun _ => 1) 300
        { App.new with
            game := { turns := 0,
                      players := [mk_player "A" 10 22 10 10 10 10 0 0 0,
                        mk_player "B" 10 22 10 10 10 10 1 0 0] } } 0).state =
      AppState.Finished ∧
    MAX_TURNS ≠ MAX_TURNS + 1 := by
  have h := step_drive_nohit (fun _ => 1) (fun _ => ⟨le_refl 1, by norm_num⟩) 300
    { App.new with
        game := { turns := 0,
                  players := [mk_player "A" 10 22 10 10 10 10 0 0 0,
                    mk_player "B" 10 22 10 10 10 10 1 0 0] } }
    (mk_player "A" 10 22 10 10 10 10 0 0 0)
    (mk_player "B" 10 22 10 10 10 10 1 0 0) 0 rfl
    ⟨by decide, by decide, by decide⟩
    (by norm_num [App.new, MAX_TURNS])
    (by norm_num [App.new, MAX_TURNS])
  exact ⟨h.1, h.2, by decide⟩

/-- C2 amended: for a two-actor battle in which no attack can ever
succeed, the headless `run_simulation` loop terminates inconclusively
with its returned turn counter equal to `MAX_TURNS + 1` — it breaks only
once the counter strictly exceeds the cap — while the interactive
stepper refuses a new turn once its counter reaches `MAX_TURNS`,
terminating (state Finished) with the counter equal to `MAX_TURNS`. -/
theorem C2_turn_cap (roll : Nat → Int) (a b : Player)
    (hroll : ∀ n, 1 ≤ roll n ∧ roll n ≤ 20) (hnh : NoHit a b) (k : Nat) :
    (∃ ps, Game.run_simulation roll { turns := 0, players := [a, b] } k =
      some (MAX_TURNS + 1, ps)) ∧
    (∀ app : App, app.game.players = [a, b] → app.current_turn = 0 →
      ∀ fuel : Nat, MAX_TURNS + 1 ≤ (fuel : Int) →
        (App.step_drive roll fuel app k).current_turn = MAX_TURNS ∧
        (App.step_drive roll fuel app k).state = AppState.Finished) := by
  constructor
  · exact run_simulation_nohit roll hroll 257 0 a b k hnh
      (by simp [MAX_TURNS]) (by norm_num)
  · intro app hp h0 fuel hfuel
    refine step_drive_nohit roll hroll fuel app a b k hp hnh ?_ ?_
    · rw [h0]
      simp [MAX_TURNS]
    · rw [h0]
      omega

/-- C2 witness: a concrete no-hit pair (attack bonus 0, defense 22) with
the constant roll stream reaches exactly 257 turns headlessly. -/
theorem C2_witness :
    NoHit (mk_player "A" 10 22 10 10 10 10 0 0 0)
      (mk_player "B" 10 22 10 10 10 10 1 0 0) ∧
    (∀ _ : Nat, (1 : Int) ≤ 1 ∧ (1 : Int) ≤ 20) ∧
    (∃ ps, Game.run_simulation (fun _ => 1)
        { turns := 0,
          players := [mk_player "A" 10 22 10 10 10 10 0 0 0,
            mk_player "B" 10 22 10 10 10 10 1 0 0] } 0 =
      some (MAX_TURNS + 1, ps)) := by
  have hnh : NoHit (mk_player "A" 10 22 10 10 10 10 0 0 0)
      (mk_player "B" 10 22 10 10 10 10 1 0 0) :=
    ⟨by decide, by decide, by decide⟩
  exact ⟨hnh, fun _ => ⟨le_refl 1, by norm_num⟩,
    (C2_turn_cap (fun _ => 1)
      (mk_player "A" 10 22 10 10 10 10 0 0 0)
      (mk_player "B" 10 22 10 10 10 10 1 0 0)
      (fun _ => ⟨le_refl 1, by norm_num⟩) hnh 0).1⟩
